import Mathlib

/-!
Verification development for the entropy accumulator of `src/tls/entropy.c`
(mbed TLS entropy module as shipped in this repository).

The state of `mbedtls_entropy_context` is embedded shallowly:

* the SHA accumulator is represented by the exact byte transcript absorbed
  since it was last started (the hash primitive itself is out of scope for
  the module, so digests and primitive return codes are supplied by a
  `HashPrim` parameter);
* a source's `f_source` / `p_source` callback pair is represented by a pure
  function from the number of times the callback has been invoked so far to
  the callback's result, which models a deterministic stateful callback; the
  invocation count is tracked in the source record;
* local scratch buffers whose residual contents matter (the polling buffer
  of `entropy_gather_internal`) are threaded explicitly, so that what is
  left in them on each exit path is observable;
* machine integers are `Nat`, with `% 256` where a value is stored into a
  byte (`unsigned char` parameters and `& 0xFF` masks).

The module is used single-threadedly here: `spin_lock` / `spin_unlock`
delimit every exported operation in the C code, so each exported operation
is one atomic state transition.
-/

/-- Number of bytes in one accumulator hash block.  Modelled from the spec:
entropy.h is not under src/; the spec limits one extraction to one hash
block and entropy.c selects a 256- or 512-bit digest, so the SHA-256
branch with 32-byte blocks is used here. -/
def MBEDTLS_ENTROPY_BLOCK_SIZE : Nat := 32

/-- Maximum number of registered sources.  Modelled from the spec: a fixed
maximum capacity, e.g. 20 (entropy.h is not under src/). -/
def MBEDTLS_ENTROPY_MAX_SOURCES : Nat := 20

/-- Size in bytes of the per-round polling scratch buffer of
`entropy_gather_internal`.  Modelled from the spec: a fixed bounded scratch
size (entropy.h is not under src/). -/
def MBEDTLS_ENTROPY_MAX_GATHER : Nat := 128

/-- Loop bound of `mbedtls_entropy_func`, entropy.c line 40. -/
def ENTROPY_MAX_LOOP : Nat := 256

/-- Reserved source tag for caller-supplied entropy.  Modelled from the
spec: a reserved manual tag outside the registration indices (entropy.h is
not under src/ and reserves the value equal to the maximum source count). -/
def MBEDTLS_ENTROPY_SOURCE_MANUAL : Nat := MBEDTLS_ENTROPY_MAX_SOURCES

/-- Error codes.  The first four constructors correspond one to one to the
macros entropy.c returns: MBEDTLS_ERR_ENTROPY_MAX_SOURCES,
MBEDTLS_ERR_ENTROPY_NO_SOURCES_DEFINED, MBEDTLS_ERR_ENTROPY_NO_STRONG_SOURCE
and MBEDTLS_ERR_ENTROPY_SOURCE_FAILED (distinct negative values defined in
entropy.h, which is not under src/).  RequestTooLarge, LoopExceeded and
HashFailure are modelled from the spec: its error surface names them as
distinct errors, but entropy.c contains no macro for any of them. -/
inductive EntErr where
  | MAX_SOURCES
  | NO_SOURCES_DEFINED
  | NO_STRONG_SOURCE
  | SOURCE_FAILED
  | RequestTooLarge
  | LoopExceeded
  | HashFailure
  deriving DecidableEq

/-- Result of one invocation of a source's poll callback: either the bytes
it wrote into the scratch buffer (their number is the reported `olen`) or
the nonzero error code it returned. -/
inductive PollRes where
  | ok (data : List Nat)
  | fail (e : EntErr)
  deriving DecidableEq

/-- Whether a poll callback invocation returned zero (success). -/
def PollRes.isOk : PollRes → Bool
  | .ok _ => true
  | .fail _ => false

/-- One registered entropy source (struct mbedtls_entropy_source_state).
`poll` models the `f_source` callback together with its opaque `p_source`
state: the argument is the number of times this callback has been invoked
so far, recorded in `calls`.  `size` is the accumulated byte count. -/
structure EntropySource where
  poll : Nat → PollRes
  calls : Nat
  threshold : Nat
  strong : Bool
  size : Nat

/-- Number of bytes the next invocation of the source's callback reports
(zero when the callback fails). -/
def pollOlen (s : EntropySource) : Nat :=
  match s.poll s.calls with
  | .ok data => data.length
  | .fail _ => 0

/-- The entropy context (struct mbedtls_entropy_context): the registered
sources, the accumulator-started flag and the accumulator state, the
latter represented by the byte transcript absorbed since the last start. -/
structure mbedtls_entropy_context where
  sources : List EntropySource
  accumulator_started : Bool
  transcript : List Nat

/-- The hash primitive, out of scope for the module (entropy.c calls it
through mbedtls_sha256_* / mbedtls_sha512_*).  `digest1` and `ret1` are the
output and the return code of the one-shot hash; `startsRet`, `updateRet`
and `finishRet` are the return codes of the incremental operations
(`updateRet` may depend on the transcript absorbed so far and on the chunk);
`finish` maps the absorbed transcript to the final digest. -/
structure HashPrim where
  digest1 : List Nat → List Nat
  ret1 : List Nat → Option EntErr
  startsRet : Option EntErr
  updateRet : List Nat → List Nat → Option EntErr
  finish : List Nat → List Nat
  finishRet : List Nat → Option EntErr

/-- A hash primitive whose operations never fail, the normal behavior of
the SHA-256/512 routines on valid input. -/
def hashOk : HashPrim where
  digest1 := fun _ => List.replicate MBEDTLS_ENTROPY_BLOCK_SIZE 0
  ret1 := fun _ => none
  startsRet := none
  updateRet := fun _ _ => none
  finish := fun _ => List.replicate MBEDTLS_ENTROPY_BLOCK_SIZE 0
  finishRet := fun _ => none

/-- Proposition that a hash primitive's operations all succeed. -/
def HashPrim.NeverFails (hp : HashPrim) : Prop :=
  hp.startsRet = none ∧ (∀ a b, hp.updateRet a b = none) ∧
    (∀ a, hp.ret1 a = none) ∧ (∀ a, hp.finishRet a = none)

/-- entropy.c lines 123-177, `entropy_update`: absorb one tagged
contribution into the accumulator.  Data longer than one block is first
pre-hashed down to one block; a 2-byte header of source tag and used length
is absorbed before the payload; the accumulator is lazily started.  Returns
the error code (`none` is 0) and the updated context. -/
def entropy_update (hp : HashPrim) (ctx : mbedtls_entropy_context)
    (source_id : Nat) (data : List Nat) :
    Option EntErr × mbedtls_entropy_context :=
  match (if MBEDTLS_ENTROPY_BLOCK_SIZE < data.length then hp.ret1 data else none) with
  | some e => (some e, ctx)
  | none =>
    let use_len := if MBEDTLS_ENTROPY_BLOCK_SIZE < data.length then
      MBEDTLS_ENTROPY_BLOCK_SIZE else data.length
    let p := if MBEDTLS_ENTROPY_BLOCK_SIZE < data.length then hp.digest1 data else data
    let header := [source_id % 256, use_len % 256]
    match (if ctx.accumulator_started then none else hp.startsRet) with
    | some e => (some e, ctx)
    | none =>
      let base := if ctx.accumulator_started then ctx.transcript else []
      let ctx1 : mbedtls_entropy_context :=
        { ctx with accumulator_started := true, transcript := base }
      match hp.updateRet ctx1.transcript header with
      | some e => (some e, ctx1)
      | none =>
        let ctx2 : mbedtls_entropy_context :=
          { ctx1 with transcript := ctx1.transcript ++ header }
        match hp.updateRet ctx2.transcript p with
        | some e => (some e, ctx2)
        | none => (none, { ctx2 with transcript := ctx2.transcript ++ p })

/-- entropy.c lines 179-191, `mbedtls_entropy_update_manual`: absorb
caller-supplied data under the reserved manual tag (under the lock). -/
def mbedtls_entropy_update_manual (hp : HashPrim)
    (ctx : mbedtls_entropy_context) (data : List Nat) :
    Option EntErr × mbedtls_entropy_context :=
  entropy_update hp ctx MBEDTLS_ENTROPY_SOURCE_MANUAL data

/-- Effect on the scratch buffer of a callback writing `data` at its start:
the first `data.length` bytes are overwritten, the rest keeps its previous
contents. -/
def bufWrite (buf data : List Nat) : List Nat :=
  data.take buf.length ++ buf.drop data.length

/-- Result of the polling loop of `entropy_gather_internal`: return code,
updated source records, updated accumulator flag and transcript, final
contents of the scratch buffer, and the have_one_strong flag. -/
structure GRes where
  ret : Option EntErr
  srcs : List EntropySource
  started : Bool
  transcript : List Nat
  buf : List Nat
  hos : Bool

/-- entropy.c lines 208-230, the source loop of `entropy_gather_internal`,
recursing over the not yet visited sources.  `acc` carries the accumulator
state (its `sources` field is irrelevant and unchanged by
`entropy_update`); `i` is the index of the next source; `buf` the scratch
buffer contents; `hos` the have_one_strong flag so far.  On a failing poll
callback the loop exits through the cleanup label, which zeroizes the
scratch buffer; on a failing `entropy_update` the code returns directly
(line 227) and the scratch buffer keeps the polled bytes. -/
def gatherFrom (hp : HashPrim) (acc : mbedtls_entropy_context) (i : Nat)
    (rest : List EntropySource) (buf : List Nat) (hos : Bool) : GRes :=
  match rest with
  | [] =>
    { ret := none, srcs := [], started := acc.accumulator_started,
      transcript := acc.transcript, buf := buf, hos := hos }
  | s :: tail =>
    let hos1 := hos || s.strong
    match s.poll s.calls with
    | .fail e =>
      let zero := List.replicate MBEDTLS_ENTROPY_MAX_GATHER 0
      let s1 : EntropySource := { s with calls := s.calls + 1 }
      { ret := some e, srcs := s1 :: tail, started := acc.accumulator_started,
        transcript := acc.transcript, buf := zero, hos := hos1 }
    | .ok data =>
      if 0 < data.length then
        match entropy_update hp acc i data with
        | (some e, acc1) =>
          let s1 : EntropySource := { s with calls := s.calls + 1 }
          { ret := some e, srcs := s1 :: tail,
            started := acc1.accumulator_started,
            transcript := acc1.transcript, buf := bufWrite buf data,
            hos := hos1 }
        | (none, acc1) =>
          let r := gatherFrom hp acc1 (i + 1) tail (bufWrite buf data) hos1
          let s1 : EntropySource :=
            { s with calls := s.calls + 1, size := s.size + data.length }
          { r with srcs := s1 :: r.srcs }
      else
        let r := gatherFrom hp acc (i + 1) tail buf hos1
        let s1 : EntropySource := { s with calls := s.calls + 1 }
        { r with srcs := s1 :: r.srcs }

/-- Result of one full gather round: return code, updated context, and the
final contents of the round's scratch buffer. -/
structure GatherRes where
  ret : Option EntErr
  ctx : mbedtls_entropy_context
  buf : List Nat

/-- entropy.c lines 196-239, `entropy_gather_internal`: one gather round.
`buf0` is the initial (uninitialized) contents of the local scratch buffer.
An empty registry fails with NO_SOURCES_DEFINED before the loop; after a
completed loop, a round with no strong source registered fails with
NO_STRONG_SOURCE; the cleanup label zeroizes the scratch buffer on every
path through it. -/
def entropy_gather_internal (hp : HashPrim) (ctx : mbedtls_entropy_context)
    (buf0 : List Nat) : GatherRes :=
  if ctx.sources.length = 0 then
    { ret := some EntErr.NO_SOURCES_DEFINED, ctx := ctx, buf := buf0 }
  else
    let r := gatherFrom hp ctx 0 ctx.sources buf0 false
    let ctx1 : mbedtls_entropy_context :=
      { sources := r.srcs, accumulator_started := r.started,
        transcript := r.transcript }
    match r.ret with
    | some e => { ret := some e, ctx := ctx1, buf := r.buf }
    | none =>
      if r.hos then
        { ret := none, ctx := ctx1,
          buf := List.replicate MBEDTLS_ENTROPY_MAX_GATHER 0 }
      else
        { ret := some EntErr.NO_STRONG_SOURCE, ctx := ctx1,
          buf := List.replicate MBEDTLS_ENTROPY_MAX_GATHER 0 }

/-- entropy.c lines 244-255, `mbedtls_entropy_gather`: lock-taking wrapper
around one gather round. -/
def mbedtls_entropy_gather (hp : HashPrim) (ctx : mbedtls_entropy_context) :
    Option EntErr × mbedtls_entropy_context :=
  let r := entropy_gather_internal hp ctx
    (List.replicate MBEDTLS_ENTROPY_MAX_GATHER 0)
  (r.ret, r.ctx)

/-- entropy.c lines 271-287, the gather loop of `mbedtls_entropy_func`.
The C loop tests `count++ > ENTROPY_MAX_LOOP` before each round, so exactly
ENTROPY_MAX_LOOP + 1 rounds may run before the bound error; `fuel` is the
number of rounds still allowed.  The loop repeats while some source's
accumulated size is below its threshold. -/
def gatherLoop (hp : HashPrim) (fuel : Nat) (ctx : mbedtls_entropy_context) :
    Option EntErr × mbedtls_entropy_context :=
  match fuel with
  | 0 => (some EntErr.SOURCE_FAILED, ctx)
  | fuel + 1 =>
    let r := entropy_gather_internal hp ctx
      (List.replicate MBEDTLS_ENTROPY_MAX_GATHER 0)
    match r.ret with
    | some e => (some e, r.ctx)
    | none =>
      if r.ctx.sources.all (fun s => decide (s.threshold ≤ s.size)) then
        (none, r.ctx)
      else
        gatherLoop hp fuel r.ctx

/-- Result of the extraction entry point: return code, updated context, and
the caller's output buffer after the call. -/
structure FuncRes where
  ret : Option EntErr
  ctx : mbedtls_entropy_context
  output : List Nat

/-- entropy.c lines 257-353, `mbedtls_entropy_func`: the extraction entry
point.  Requests longer than one block are rejected with
MBEDTLS_ERR_ENTROPY_SOURCE_FAILED before the lock is taken; then the
bounded gather loop runs; on its success the accumulator is finalized, the
hash state is freed, reinitialized and restarted (the accumulator_started
flag is not touched), the digest is absorbed back for feed-forward, a
second one-shot hash of the digest produces the released bytes, every
source's accumulated size is reset to zero and `len` bytes are copied into
the caller's buffer. -/
def mbedtls_entropy_func (hp : HashPrim) (ctx : mbedtls_entropy_context)
    (output : List Nat) (len : Nat) : FuncRes :=
  if MBEDTLS_ENTROPY_BLOCK_SIZE < len then
    { ret := some EntErr.SOURCE_FAILED, ctx := ctx, output := output }
  else
    match gatherLoop hp (ENTROPY_MAX_LOOP + 1) ctx with
    | (some e, ctx1) => { ret := some e, ctx := ctx1, output := output }
    | (none, ctx1) =>
      match hp.finishRet ctx1.transcript with
      | some e => { ret := some e, ctx := ctx1, output := output }
      | none =>
        let buf := hp.finish ctx1.transcript
        let ctx2 : mbedtls_entropy_context := { ctx1 with transcript := [] }
        match hp.startsRet with
        | some e => { ret := some e, ctx := ctx2, output := output }
        | none =>
          match hp.updateRet ctx2.transcript buf with
          | some e => { ret := some e, ctx := ctx2, output := output }
          | none =>
            let ctx3 : mbedtls_entropy_context := { ctx2 with transcript := buf }
            match hp.ret1 buf with
            | some e => { ret := some e, ctx := ctx3, output := output }
            | none =>
              let out := hp.digest1 buf
              let reset := fun (s : EntropySource) => { s with size := 0 }
              let ctx4 : mbedtls_entropy_context :=
                { ctx3 with sources := ctx3.sources.map reset }
              { ret := none, ctx := ctx4,
                output := out.take len ++ output.drop len }

/-- entropy.c lines 92-118, `mbedtls_entropy_add_source`: register one
source; fails with MBEDTLS_ERR_ENTROPY_MAX_SOURCES once the registry holds
MBEDTLS_ENTROPY_MAX_SOURCES entries. -/
def mbedtls_entropy_add_source (ctx : mbedtls_entropy_context)
    (poll : Nat → PollRes) (threshold : Nat) (strong : Bool) :
    Option EntErr × mbedtls_entropy_context :=
  if MBEDTLS_ENTROPY_MAX_SOURCES ≤ ctx.sources.length then
    (some EntErr.MAX_SOURCES, ctx)
  else
    (none, { ctx with sources := ctx.sources ++
        [{ poll := poll, calls := 0, threshold := threshold,
           strong := strong, size := 0 }] })

/-- entropy.c lines 42-75, `mbedtls_entropy_init`: zeroed registry, flag
cleared, fresh accumulator.  The default sources of the
MBEDTLS_NO_DEFAULT_ENTROPY_SOURCES-guarded block are registered through
`mbedtls_entropy_add_source` and are covered by that transition. -/
def mbedtls_entropy_init : mbedtls_entropy_context :=
  { sources := [], accumulator_started := false, transcript := [] }

/-- Context states reachable from `mbedtls_entropy_init` through the
exported operations of entropy.c. -/
inductive Reachable : mbedtls_entropy_context → Prop where
  | init : Reachable mbedtls_entropy_init
  | add (c : mbedtls_entropy_context) (p : Nat → PollRes) (t : Nat) (s : Bool) :
      Reachable c → Reachable (mbedtls_entropy_add_source c p t s).2
  | manual (hp : HashPrim) (c : mbedtls_entropy_context) (d : List Nat) :
      Reachable c → Reachable (mbedtls_entropy_update_manual hp c d).2
  | gatherStep (hp : HashPrim) (c : mbedtls_entropy_context) :
      Reachable c → Reachable (mbedtls_entropy_gather hp c).2
  | extract (hp : HashPrim) (c : mbedtls_entropy_context)
      (out : List Nat) (len : Nat) :
      Reachable c → Reachable (mbedtls_entropy_func hp c out len).ctx

/-- The used length absorbed into the header equals the minimum of the data
length and the block size. -/
theorem use_len_eq_min (n : Nat) :
    (if MBEDTLS_ENTROPY_BLOCK_SIZE < n then MBEDTLS_ENTROPY_BLOCK_SIZE else n) =
      min n MBEDTLS_ENTROPY_BLOCK_SIZE := by
  rcases Nat.lt_or_ge MBEDTLS_ENTROPY_BLOCK_SIZE n with hlt | hge
  · rw [if_pos hlt, Nat.min_eq_right (Nat.le_of_lt hlt)]
  · rw [if_neg (Nat.not_lt.mpr hge), Nat.min_eq_left hge]

/-- C1 (amended): for every output length strictly greater than one hash
block, `mbedtls_entropy_func` fails, returning the code
MBEDTLS_ERR_ENTROPY_SOURCE_FAILED (entropy.c has no distinct
request-too-large code), and neither the context nor the caller's output
buffer is changed. -/
theorem entropy_func_too_large (hp : HashPrim) (ctx : mbedtls_entropy_context)
    (out : List Nat) (len : Nat) (h : MBEDTLS_ENTROPY_BLOCK_SIZE < len) :
    mbedtls_entropy_func hp ctx out len =
      { ret := some EntErr.SOURCE_FAILED, ctx := ctx, output := out } := by
  unfold mbedtls_entropy_func
  rw [if_pos h]

/-- Witness for `entropy_func_too_large` at a concrete oversized request. -/
theorem entropy_func_too_large_applied :
    MBEDTLS_ENTROPY_BLOCK_SIZE < 33 ∧
    mbedtls_entropy_func hashOk mbedtls_entropy_init (List.replicate 33 9) 33 =
      { ret := some EntErr.SOURCE_FAILED, ctx := mbedtls_entropy_init,
        output := List.replicate 33 9 } :=
  ⟨by decide,
   entropy_func_too_large hashOk mbedtls_entropy_init (List.replicate 33 9) 33
     (by decide)⟩

/-- C1 counterexample: at a concrete oversized request the code returns the
MBEDTLS_ERR_ENTROPY_SOURCE_FAILED code, which is not the distinct
RequestTooLarge error the claim names. -/
theorem entropy_func_request_too_large_name_cex :
    (mbedtls_entropy_func hashOk mbedtls_entropy_init
        (List.replicate 33 9) 33).ret = some EntErr.SOURCE_FAILED ∧
    EntErr.SOURCE_FAILED ≠ EntErr.RequestTooLarge := by
  decide

/-- C5 (amended): a successful `entropy_update` absorbs, right after the
previously absorbed transcript, the 2-byte header of source tag and
min(len, block size) masked to a byte, followed by the payload (the data
itself, or its one-block pre-hash when the data is longer than a block). -/
theorem entropy_update_header (hp : HashPrim) (ctx : mbedtls_entropy_context)
    (source_id : Nat) (data : List Nat)
    (h : (entropy_update hp ctx source_id data).1 = none) :
    (entropy_update hp ctx source_id data).2.transcript =
      (if ctx.accumulator_started then ctx.transcript else []) ++
        [source_id % 256, min data.length MBEDTLS_ENTROPY_BLOCK_SIZE % 256] ++
        (if MBEDTLS_ENTROPY_BLOCK_SIZE < data.length then hp.digest1 data
         else data) := by
  rw [← use_len_eq_min]
  revert h
  unfold entropy_update
  dsimp only
  repeat' split
  all_goals intro h
  all_goals try simp at h
  all_goals simp [List.append_assoc]

/-- Witness for `entropy_update_header` at a concrete small input. -/
theorem entropy_update_header_applied :
    (entropy_update hashOk mbedtls_entropy_init 3 [1, 2]).1 = none ∧
    (entropy_update hashOk mbedtls_entropy_init 3 [1, 2]).2.transcript =
      (if mbedtls_entropy_init.accumulator_started then
        mbedtls_entropy_init.transcript else []) ++
        [3 % 256, min (List.length [1, 2]) MBEDTLS_ENTROPY_BLOCK_SIZE % 256] ++
        (if MBEDTLS_ENTROPY_BLOCK_SIZE < (List.length [1, 2]) then
          hashOk.digest1 [1, 2] else [1, 2]) :=
  ⟨by decide,
   entropy_update_header hashOk mbedtls_entropy_init 3 [1, 2] (by decide)⟩

/-- C5 counterexample: for 33 bytes of data the absorbed header is the tag
followed by 32 (the block size, after pre-hashing), not min(33, 255) = 33
as the claim states. -/
theorem entropy_update_header_cex :
    (entropy_update hashOk mbedtls_entropy_init 3
        (List.replicate 33 7)).2.transcript.take 2 = [3, 32] ∧
    (32 : Nat) ≠ min 33 255 := by
  decide

/-- C6 (confirmed): after every successful `mbedtls_entropy_func` call the
accumulated size of every registered source is exactly zero. -/
theorem entropy_func_success_sizes_zero (hp : HashPrim)
    (ctx : mbedtls_entropy_context) (out : List Nat) (len : Nat)
    (h : (mbedtls_entropy_func hp ctx out len).ret = none) :
    ∀ s ∈ (mbedtls_entropy_func hp ctx out len).ctx.sources, s.size = 0 := by
  revert h
  unfold mbedtls_entropy_func
  dsimp only
  repeat' split
  all_goals intro h
  all_goals try simp at h
  intro s hs
  simp only [List.mem_map] at hs
  obtain ⟨t, _, rfl⟩ := hs
  rfl

/-- C10 (confirmed): `mbedtls_entropy_update_manual` with empty data is not
a no-op when the hash primitive succeeds: it mixes the 2-byte header of the
manual tag and length 0, sets the accumulator-started flag, and the
resulting context differs from the context before the call. -/
theorem update_manual_empty_not_noop (hp : HashPrim)
    (ctx : mbedtls_entropy_context)
    (hs : hp.startsRet = none) (hu : ∀ a b, hp.updateRet a b = none) :
    (mbedtls_entropy_update_manual hp ctx []).1 = none ∧
    (mbedtls_entropy_update_manual hp ctx []).2.accumulator_started = true ∧
    (mbedtls_entropy_update_manual hp ctx []).2.transcript =
      (if ctx.accumulator_started then ctx.transcript else []) ++
        [MBEDTLS_ENTROPY_SOURCE_MANUAL % 256, 0] ∧
    (mbedtls_entropy_update_manual hp ctx []).2 ≠ ctx := by
  have key : mbedtls_entropy_update_manual hp ctx [] =
      (none, { ctx with accumulator_started := true, transcript := (if ctx.accumulator_started then ctx.transcript else []) ++ [MBEDTLS_ENTROPY_SOURCE_MANUAL % 256, 0] }) := by
    unfold mbedtls_entropy_update_manual entropy_update
    cases hst : ctx.accumulator_started <;>
      simp [hs, hu, hst, Nat.not_lt_zero, MBEDTLS_ENTROPY_SOURCE_MANUAL,
        MBEDTLS_ENTROPY_MAX_SOURCES, MBEDTLS_ENTROPY_BLOCK_SIZE]
  refine ⟨by rw [key], by rw [key], by rw [key], ?_⟩
  intro hEq
  have h1 := congrArg mbedtls_entropy_context.accumulator_started hEq
  have h2 := congrArg mbedtls_entropy_context.transcript hEq
  rw [key] at h1 h2
  dsimp at h1 h2
  have h1b : ctx.accumulator_started = true := h1.symm
  rw [if_pos h1b] at h2
  have h3 := congrArg List.length h2
  simp only [List.length_append, List.length_cons, List.length_nil] at h3
  omega

/-- Witness for `update_manual_empty_not_noop` at the initial context. -/
theorem update_manual_empty_not_noop_applied :
    hashOk.startsRet = none ∧
    (mbedtls_entropy_update_manual hashOk mbedtls_entropy_init []).2 ≠
      mbedtls_entropy_init :=
  ⟨rfl, (update_manual_empty_not_noop hashOk mbedtls_entropy_init rfl
    (fun _ _ => rfl)).2.2.2⟩

/-- A hash primitive whose incremental update step fails, the failure mode
of the internal mix step inside a gather round. -/
def hpUpdFail : HashPrim :=
  { hashOk with updateRet := fun _ _ => some EntErr.HashFailure }

/-- A strong source whose poll callback always succeeds with one byte of
value 42. -/
def srcPoll42 : EntropySource :=
  { poll := fun _ => PollRes.ok [42], calls := 0, threshold := 0,
    strong := true, size := 0 }

/-- A context with `srcPoll42` as its only registered source. -/
def ctxPoll42 : mbedtls_entropy_context :=
  { sources := [srcPoll42], accumulator_started := false, transcript := [] }

set_option maxRecDepth 16384 in
/-- C3 (code bug): when the internal mix step of a gather round fails, the
round returns through the direct `return ret` of entropy.c line 227, which
bypasses the cleanup label, so the polling scratch buffer is NOT zeroized:
starting from an all-zero scratch buffer, after the failing round the
buffer still holds the polled byte 42. -/
theorem gather_scratch_not_zeroized :
    (entropy_gather_internal hpUpdFail ctxPoll42
        (List.replicate MBEDTLS_ENTROPY_MAX_GATHER 0)).ret =
      some EntErr.HashFailure ∧
    (entropy_gather_internal hpUpdFail ctxPoll42
        (List.replicate MBEDTLS_ENTROPY_MAX_GATHER 0)).buf ≠
      List.replicate MBEDTLS_ENTROPY_MAX_GATHER 0 := by
  decide

/-- The accumulator-started flag cannot be cleared by `entropy_update`:
every branch either leaves the context unchanged or sets the flag. -/
theorem entropy_update_started_mono (hp : HashPrim)
    (ctx : mbedtls_entropy_context) (source_id : Nat) (data : List Nat)
    (h : ctx.accumulator_started = true) :
    (entropy_update hp ctx source_id data).2.accumulator_started = true := by
  unfold entropy_update
  dsimp only
  repeat' split
  all_goals simp [h]

/-- The accumulator-started flag survives the polling loop of a gather
round once it is set. -/
theorem gatherFrom_started_mono (hp : HashPrim) :
    ∀ (rest : List EntropySource) (acc : mbedtls_entropy_context)
      (i : Nat) (buf : List Nat) (hos : Bool),
      acc.accumulator_started = true →
      (gatherFrom hp acc i rest buf hos).started = true := by
  intro rest
  induction rest with
  | nil => intro acc i buf hos h; simpa [gatherFrom] using h
  | cons s tail ih =>
    intro acc i buf hos h
    unfold gatherFrom
    dsimp only
    cases hpoll : s.poll s.calls with
    | fail e => simpa using h
    | ok data =>
      by_cases hlen : 0 < data.length
      · simp only [if_pos hlen]
        have hm := entropy_update_started_mono hp acc i data h
        cases hup : entropy_update hp acc i data with
        | mk r1 acc1 =>
          rw [hup] at hm
          cases r1 with
          | none => exact ih acc1 (i + 1) (bufWrite buf data) (hos || s.strong) (by simpa using hm)
          | some e => simpa using hm
      · simp only [if_neg hlen]
        exact ih acc (i + 1) buf (hos || s.strong) h

/-- The accumulator-started flag survives a full gather round once set. -/
theorem gather_internal_started_mono (hp : HashPrim)
    (ctx : mbedtls_entropy_context) (buf0 : List Nat)
    (h : ctx.accumulator_started = true) :
    (entropy_gather_internal hp ctx buf0).ctx.accumulator_started = true := by
  unfold entropy_gather_internal
  dsimp only
  have hg := gatherFrom_started_mono hp ctx.sources ctx 0 buf0 false h
  repeat' split
  all_goals simp_all

/-- The accumulator-started flag survives the bounded gather loop once
set. -/
theorem gatherLoop_started_mono (hp : HashPrim) :
    ∀ (fuel : Nat) (ctx : mbedtls_entropy_context),
      ctx.accumulator_started = true →
      (gatherLoop hp fuel ctx).2.accumulator_started = true := by
  intro fuel
  induction fuel with
  | zero => intro ctx h; simpa [gatherLoop] using h
  | succ fuel ih =>
    intro ctx h
    unfold gatherLoop
    dsimp only
    have hg := gather_internal_started_mono hp ctx
      (List.replicate MBEDTLS_ENTROPY_MAX_GATHER 0) h
    split
    · simp_all
    · split
      · simp_all
      · exact ih _ hg

/-- C9 (amended): the accumulator-started flag is monotone.  A successful
`entropy_update` (the only place bytes are mixed in) leaves it set, and
once set the flag stays set across source registration, manual updates,
gather rounds and whole `mbedtls_entropy_func` calls: the extraction's
reseeding step restarts the hash state but never resets the flag, which is
cleared only by init and free. -/
theorem started_flag_monotone (hp : HashPrim) (ctx : mbedtls_entropy_context)
    (h : ctx.accumulator_started = true) :
    (∀ ctx2 source_id data, (entropy_update hp ctx2 source_id data).1 = none →
      (entropy_update hp ctx2 source_id data).2.accumulator_started = true) ∧
    (∀ p t s, (mbedtls_entropy_add_source ctx p t s).2.accumulator_started
      = true) ∧
    (∀ d, (mbedtls_entropy_update_manual hp ctx d).2.accumulator_started
      = true) ∧
    (∀ b, (entropy_gather_internal hp ctx b).ctx.accumulator_started
      = true) ∧
    (∀ out len, (mbedtls_entropy_func hp ctx out len).ctx.accumulator_started
      = true) := by
  refine ⟨?_, ?_, ?_, ?_, ?_⟩
  · intro ctx2 source_id data hnone
    revert hnone
    unfold entropy_update
    dsimp only
    repeat' split
    all_goals intro hnone
    all_goals simp_all
  · intro p t s
    unfold mbedtls_entropy_add_source
    split <;> simpa using h
  · intro d
    exact entropy_update_started_mono hp ctx MBEDTLS_ENTROPY_SOURCE_MANUAL d h
  · intro b
    exact gather_internal_started_mono hp ctx b h
  · intro out len
    unfold mbedtls_entropy_func
    dsimp only
    have hl := gatherLoop_started_mono hp (ENTROPY_MAX_LOOP + 1) ctx h
    repeat' split
    all_goals simp_all

/-- A context whose accumulator-started flag is already set. -/
def ctxStarted : mbedtls_entropy_context :=
  { sources := [], accumulator_started := true, transcript := [1, 2] }

/-- Witness for `started_flag_monotone`: extraction from a started context
leaves the flag set. -/
theorem started_flag_monotone_applied :
    (mbedtls_entropy_func hashOk ctxStarted [] 0).ctx.accumulator_started
      = true :=
  (started_flag_monotone hashOk ctxStarted rfl).2.2.2.2 [] 0

/-- A strong source with threshold 0 whose poll always returns the single
byte 1. -/
def srcStrongOne : EntropySource :=
  { poll := fun _ => PollRes.ok [1], calls := 0, threshold := 0,
    strong := true, size := 0 }

/-- A context with `srcStrongOne` as its only registered source. -/
def ctxStrongOne : mbedtls_entropy_context :=
  { sources := [srcStrongOne], accumulator_started := false, transcript := [] }

set_option maxRecDepth 16384 in
/-- C9 counterexample: a successful `mbedtls_entropy_func` call leaves the
accumulator-started flag set.  No byte is mixed after the call's reseeding
step, so if that step reset the flag once per extraction as the claim
states, the flag would be false on return; it is true. -/
theorem started_flag_no_reset_cex :
    (mbedtls_entropy_func hashOk ctxStrongOne (List.replicate 4 9) 4).ret
      = none ∧
    (mbedtls_entropy_func hashOk ctxStrongOne
        (List.replicate 4 9) 4).ctx.accumulator_started = true := by
  decide

/-- When every hash-primitive operation succeeds, `entropy_update` returns
zero. -/
theorem entropy_update_neverFails (hp : HashPrim) (hne : hp.NeverFails)
    (ctx : mbedtls_entropy_context) (source_id : Nat) (data : List Nat) :
    (entropy_update hp ctx source_id data).1 = none := by
  obtain ⟨h1, h2, h3, h4⟩ := hne
  unfold entropy_update
  dsimp only
  repeat' split
  all_goals simp_all

/-- Polling loop of a gather round in which every visited callback
succeeds: no error, every source's invocation count rises by one and its
accumulated size by the number of bytes its callback reported, and the
have_one_strong flag records whether any visited source is Strong. -/
theorem gatherFrom_allOk (hp : HashPrim) (hne : hp.NeverFails) :
    ∀ (rest : List EntropySource) (acc : mbedtls_entropy_context) (i : Nat)
      (buf : List Nat) (hos : Bool),
      (∀ s ∈ rest, (s.poll s.calls).isOk = true) →
      (gatherFrom hp acc i rest buf hos).ret = none ∧
      (gatherFrom hp acc i rest buf hos).srcs =
        rest.map (fun s => { s with calls := s.calls + 1, size := s.size + pollOlen s }) ∧
      (gatherFrom hp acc i rest buf hos).hos =
        (hos || rest.any (fun s => s.strong)) := by
  intro rest
  induction rest with
  | nil => intro acc i buf hos _; simp [gatherFrom]
  | cons s tail ih =>
    intro acc i buf hos hall
    have hs0 : (s.poll s.calls).isOk = true := hall s (List.mem_cons_self s tail)
    have htail : ∀ t ∈ tail, (t.poll t.calls).isOk = true :=
      fun t ht => hall t (List.mem_cons_of_mem s ht)
    unfold gatherFrom
    dsimp only
    cases hpoll : s.poll s.calls with
    | fail e => rw [hpoll] at hs0; simp [PollRes.isOk] at hs0
    | ok data =>
      have holen : pollOlen s = data.length := by simp [pollOlen, hpoll]
      by_cases hlen : 0 < data.length
      · simp only [if_pos hlen]
        cases hup : entropy_update hp acc i data with
        | mk r1 acc1 =>
          have hr1 : r1 = none := by
            have hnf := entropy_update_neverFails hp hne acc i data
            rw [hup] at hnf; exact hnf
          subst hr1
          dsimp only
          obtain ⟨ha, hb, hc⟩ := ih acc1 (i + 1) (bufWrite buf data) (hos || s.strong) htail
          refine ⟨ha, ?_, ?_⟩
          · simp [hb, holen]
          · simp [hc, Bool.or_assoc]
      · simp only [if_neg hlen]
        obtain ⟨ha, hb, hc⟩ := ih acc (i + 1) buf (hos || s.strong) htail
        have hzero : data.length = 0 := Nat.eq_zero_of_not_pos hlen
        refine ⟨ha, ?_, ?_⟩
        · simp [hb, holen, hzero]
        · simp [hc, Bool.or_assoc]

/-- Return code of a gather round in which every callback succeeds and the
hash primitive never fails: zero if some Strong source is registered,
NO_STRONG_SOURCE otherwise. -/
theorem gather_allOk_ret (hp : HashPrim) (hne : hp.NeverFails)
    (ctx : mbedtls_entropy_context) (buf0 : List Nat)
    (hnonempty : ctx.sources ≠ [])
    (hall : ∀ s ∈ ctx.sources, (s.poll s.calls).isOk = true) :
    (entropy_gather_internal hp ctx buf0).ret =
      (if ctx.sources.any (fun s => s.strong) then none
       else some EntErr.NO_STRONG_SOURCE) := by
  obtain ⟨hr, hsrcs, hhos⟩ :=
    gatherFrom_allOk hp hne ctx.sources ctx 0 buf0 false hall
  unfold entropy_gather_internal
  dsimp only
  rw [if_neg (by simpa [List.length_eq_zero] using hnonempty)]
  split
  · next e heq => rw [hr] at heq; exact Option.noConfusion heq
  · rw [hhos]
    cases hany : ctx.sources.any (fun s => s.strong) <;> simp [hany]

/-- C2 (amended): in a gather round whose callbacks all succeed (and whose
hash steps succeed), the round returns NO_STRONG_SOURCE exactly when no
registered source is classified Strong: the code records the mere presence
of a Strong source, before polling it, so a Strong source that contributes
zero bytes still counts.  In particular a round over only Weak sources that
all contribute data returns NO_STRONG_SOURCE. -/
theorem gather_no_strong_iff (hp : HashPrim) (hne : hp.NeverFails)
    (ctx : mbedtls_entropy_context) (buf0 : List Nat)
    (hnonempty : ctx.sources ≠ [])
    (hall : ∀ s ∈ ctx.sources, (s.poll s.calls).isOk = true) :
    ((entropy_gather_internal hp ctx buf0).ret = some EntErr.NO_STRONG_SOURCE
      ↔ ∀ s ∈ ctx.sources, s.strong = false) := by
  rw [gather_allOk_ret hp hne ctx buf0 hnonempty hall]
  cases hany : ctx.sources.any (fun s => s.strong) with
  | false =>
    simp only [Bool.false_eq_true, if_false]
    constructor
    · intro _ s hs
      simpa using List.any_eq_false.mp hany s hs
    · intro _; trivial
  | true =>
    simp only [if_true]
    constructor
    · intro habs; exact Option.noConfusion habs
    · intro hw
      obtain ⟨s, hsmem, hstrong⟩ := List.any_eq_true.mp hany
      rw [hw s hsmem] at hstrong
      exact Bool.noConfusion hstrong

/-- A weak source whose poll always returns the two bytes 7, 8. -/
def srcWeakTwo : EntropySource :=
  { poll := fun _ => PollRes.ok [7, 8], calls := 0, threshold := 2,
    strong := false, size := 0 }

/-- A context whose only registered source is weak and contributing. -/
def ctxWeakOnly : mbedtls_entropy_context :=
  { sources := [srcWeakTwo], accumulator_started := false, transcript := [] }

/-- Witness for `gather_no_strong_iff`: a weak-only round whose callback
contributes data returns NO_STRONG_SOURCE. -/
theorem gather_no_strong_iff_applied :
    (entropy_gather_internal hashOk ctxWeakOnly
        (List.replicate MBEDTLS_ENTROPY_MAX_GATHER 0)).ret =
      some EntErr.NO_STRONG_SOURCE :=
  (gather_no_strong_iff hashOk
      ⟨rfl, fun _ _ => rfl, fun _ => rfl, fun _ => rfl⟩
      ctxWeakOnly (List.replicate MBEDTLS_ENTROPY_MAX_GATHER 0)
      (by simp [ctxWeakOnly])
      (by intro s hs; rw [ctxWeakOnly, List.mem_singleton] at hs; subst hs; rfl)).mpr
    (by intro s hs; rw [ctxWeakOnly, List.mem_singleton] at hs; subst hs; rfl)

/-- A strong source with threshold 0 whose poll always succeeds with zero
bytes. -/
def srcStrongEmpty : EntropySource :=
  { poll := fun _ => PollRes.ok [], calls := 0, threshold := 0,
    strong := true, size := 0 }

/-- A context whose only registered source is `srcStrongEmpty`. -/
def ctxStrongEmpty : mbedtls_entropy_context :=
  { sources := [srcStrongEmpty], accumulator_started := false, transcript := [] }

set_option maxRecDepth 16384 in
/-- C2 counterexample: a round over one Strong source whose poll succeeds
with zero bytes.  Every callback succeeds and no Strong source contributes
a nonzero number of bytes, yet the round returns success, not
NO_STRONG_SOURCE: presence of a Strong source suffices in the code. -/
theorem gather_strong_presence_cex :
    (∀ s ∈ ctxStrongEmpty.sources, (s.poll s.calls).isOk = true) ∧
    (∀ s ∈ ctxStrongEmpty.sources, s.strong = true → pollOlen s = 0) ∧
    (entropy_gather_internal hashOk ctxStrongEmpty
        (List.replicate MBEDTLS_ENTROPY_MAX_GATHER 0)).ret = none ∧
    (none : Option EntErr) ≠ some EntErr.NO_STRONG_SOURCE := by
  refine ⟨?_, ?_, by decide, by simp⟩
  · intro s hs; rw [ctxStrongEmpty, List.mem_singleton] at hs; subst hs; rfl
  · intro s hs _; rw [ctxStrongEmpty, List.mem_singleton] at hs; subst hs; rfl

/-- `entropy_update` does not change the registered sources. -/
theorem entropy_update_sources (hp : HashPrim)
    (ctx : mbedtls_entropy_context) (source_id : Nat) (data : List Nat) :
    (entropy_update hp ctx source_id data).2.sources = ctx.sources := by
  unfold entropy_update
  dsimp only
  repeat' split
  all_goals rfl

/-- The polling loop preserves the number of source records. -/
theorem gatherFrom_srcs_length (hp : HashPrim) :
    ∀ (rest : List EntropySource) (acc : mbedtls_entropy_context) (i : Nat)
      (buf : List Nat) (hos : Bool),
      (gatherFrom hp acc i rest buf hos).srcs.length = rest.length := by
  intro rest
  induction rest with
  | nil => intro acc i buf hos; rfl
  | cons s tail ih =>
    intro acc i buf hos
    unfold gatherFrom
    dsimp only
    cases hpoll : s.poll s.calls with
    | fail e => simp
    | ok data =>
      by_cases hlen : 0 < data.length
      · simp only [if_pos hlen]
        cases hup : entropy_update hp acc i data with
        | mk r1 acc1 =>
          cases r1 with
          | none => simp [ih]
          | some e => simp
      · simp only [if_neg hlen]
        simp [ih]

/-- A gather round preserves the number of registered sources. -/
theorem gather_internal_sources_length (hp : HashPrim)
    (ctx : mbedtls_entropy_context) (buf0 : List Nat) :
    (entropy_gather_internal hp ctx buf0).ctx.sources.length =
      ctx.sources.length := by
  unfold entropy_gather_internal
  dsimp only
  have hlen := gatherFrom_srcs_length hp ctx.sources ctx 0 buf0 false
  repeat' split
  all_goals simp_all

/-- The bounded gather loop preserves the number of registered sources. -/
theorem gatherLoop_sources_length (hp : HashPrim) :
    ∀ (fuel : Nat) (ctx : mbedtls_entropy_context),
      (gatherLoop hp fuel ctx).2.sources.length = ctx.sources.length := by
  intro fuel
  induction fuel with
  | zero => intro ctx; rfl
  | succ fuel ih =>
    intro ctx
    unfold gatherLoop
    dsimp only
    have hg := gather_internal_sources_length hp ctx
      (List.replicate MBEDTLS_ENTROPY_MAX_GATHER 0)
    split
    · simp_all
    · split
      · simp_all
      · rw [ih]; exact hg

/-- `mbedtls_entropy_func` preserves the number of registered sources. -/
theorem entropy_func_sources_length (hp : HashPrim)
    (ctx : mbedtls_entropy_context) (out : List Nat) (len : Nat) :
    (mbedtls_entropy_func hp ctx out len).ctx.sources.length =
      ctx.sources.length := by
  unfold mbedtls_entropy_func
  dsimp only
  have hl := gatherLoop_sources_length hp (ENTROPY_MAX_LOOP + 1) ctx
  repeat' split
  all_goals simp_all

/-- C7 (confirmed): every reachable context holds at most
MBEDTLS_ENTROPY_MAX_SOURCES sources, and once a context has reached that
capacity every further `mbedtls_entropy_add_source` call fails with the
MAX_SOURCES error and leaves the context unchanged. -/
theorem add_source_capacity (ctx : mbedtls_entropy_context)
    (h : Reachable ctx) :
    ctx.sources.length ≤ MBEDTLS_ENTROPY_MAX_SOURCES ∧
    ∀ p t s, MBEDTLS_ENTROPY_MAX_SOURCES ≤ ctx.sources.length →
      mbedtls_entropy_add_source ctx p t s = (some EntErr.MAX_SOURCES, ctx) := by
  have hreject : ∀ (c : mbedtls_entropy_context) (p : Nat → PollRes)
      (t : Nat) (s : Bool), MBEDTLS_ENTROPY_MAX_SOURCES ≤ c.sources.length →
      mbedtls_entropy_add_source c p t s = (some EntErr.MAX_SOURCES, c) := by
    intro c p t s hfull
    unfold mbedtls_entropy_add_source
    rw [if_pos hfull]
  refine ⟨?_, fun p t s hfull => hreject ctx p t s hfull⟩
  induction h with
  | init => simp [mbedtls_entropy_init, MBEDTLS_ENTROPY_MAX_SOURCES]
  | add c p t s _ ih =>
    unfold mbedtls_entropy_add_source
    split
    · next hfull => simpa using ih
    · next hroom =>
      have hlt := Nat.lt_of_not_le hroom
      simpa using hlt
  | manual hp c d _ ih =>
    have hsrc := entropy_update_sources hp c MBEDTLS_ENTROPY_SOURCE_MANUAL d
    unfold mbedtls_entropy_update_manual
    rw [hsrc]
    exact ih
  | gatherStep hp c _ ih =>
    unfold mbedtls_entropy_gather
    dsimp only
    rw [gather_internal_sources_length hp c
      (List.replicate MBEDTLS_ENTROPY_MAX_GATHER 0)]
    exact ih
  | extract hp c out len _ ih =>
    rw [entropy_func_sources_length hp c out len]
    exact ih

/-- Witness for `add_source_capacity` at the initial context, which is
reachable by definition. -/
theorem add_source_capacity_applied :
    mbedtls_entropy_init.sources.length ≤ MBEDTLS_ENTROPY_MAX_SOURCES :=
  (add_source_capacity mbedtls_entropy_init Reachable.init).1

/-- Source records after a gather round in which every callback succeeds:
each record's invocation count rises by one and its accumulated size by the
bytes its callback reported. -/
theorem gather_allOk_sources (hp : HashPrim) (hne : hp.NeverFails)
    (ctx : mbedtls_entropy_context) (buf0 : List Nat)
    (hnonempty : ctx.sources ≠ [])
    (hall : ∀ s ∈ ctx.sources, (s.poll s.calls).isOk = true) :
    (entropy_gather_internal hp ctx buf0).ctx.sources =
      ctx.sources.map
        (fun s => { s with calls := s.calls + 1, size := s.size + pollOlen s }) := by
  obtain ⟨hr, hsrcs, hhos⟩ :=
    gatherFrom_allOk hp hne ctx.sources ctx 0 buf0 false hall
  unfold entropy_gather_internal
  dsimp only
  rw [if_neg (by simpa [List.length_eq_zero] using hnonempty)]
  split
  · next e heq => rw [hr] at heq; exact Option.noConfusion heq
  · split <;> simpa using hsrcs


/-- The bounded gather loop in a context where some source can never meet
its threshold (its callback always succeeds with zero bytes) while all
other callbacks also succeed: the loop consumes all its fuel, returns the
MBEDTLS_ERR_ENTROPY_SOURCE_FAILED code, and polls every source exactly
`fuel` times. -/
theorem gatherLoop_stuck (hp : HashPrim) (hne : hp.NeverFails) :
    ∀ (fuel : Nat) (ctx : mbedtls_entropy_context) (k : Nat)
      (sk : EntropySource),
      (∀ s ∈ ctx.sources, ∀ t, (s.poll t).isOk = true) →
      ctx.sources.any (fun s => s.strong) = true →
      ctx.sources[k]? = some sk →
      (∀ t, sk.poll t = PollRes.ok []) →
      sk.size < sk.threshold →
      (gatherLoop hp fuel ctx).1 = some EntErr.SOURCE_FAILED ∧
      ∀ j : Nat,
        (gatherLoop hp fuel ctx).2.sources[j]?.map (fun s => s.calls) =
          ctx.sources[j]?.map (fun s => s.calls + fuel) := by
  intro fuel
  induction fuel with
  | zero =>
    intro ctx k sk _ _ _ _ _
    exact ⟨rfl, fun j => by cases hj : ctx.sources[j]? <;> simp [gatherLoop, hj]⟩
  | succ fuel ih =>
    intro ctx k sk hall hstr hk hzero hth
    have hklt : k < ctx.sources.length := by
      rcases List.getElem?_eq_some.mp hk with ⟨h1, _⟩
      exact h1
    have hnonempty : ctx.sources ≠ [] :=
      List.ne_nil_of_length_pos (Nat.lt_of_le_of_lt (Nat.zero_le k) hklt)
    have hallNow : ∀ s ∈ ctx.sources, (s.poll s.calls).isOk = true :=
      fun s hs => hall s hs s.calls
    have hret := gather_allOk_ret hp hne ctx
      (List.replicate MBEDTLS_ENTROPY_MAX_GATHER 0) hnonempty hallNow
    rw [hstr] at hret
    simp only [if_true] at hret
    have hsources := gather_allOk_sources hp hne ctx
      (List.replicate MBEDTLS_ENTROPY_MAX_GATHER 0) hnonempty hallNow
    have holen0 : pollOlen sk = 0 := by simp [pollOlen, hzero]
    have hknew : (entropy_gather_internal hp ctx
        (List.replicate MBEDTLS_ENTROPY_MAX_GATHER 0)).ctx.sources[k]? =
        some { sk with calls := sk.calls + 1, size := sk.size + pollOlen sk } := by
      rw [hsources, List.getElem?_map, hk]
      rfl
    unfold gatherLoop
    dsimp only
    split
    · next e heq => rw [heq] at hret; exact Option.noConfusion hret
    · split
      · next hAll =>
        exfalso
        have hmem := List.getElem?_mem hknew
        have hd := List.all_eq_true.mp hAll _ hmem
        rw [holen0] at hd
        simp only [decide_eq_true_eq] at hd
        omega
      · next hnotAll =>
        have hall2 : ∀ s ∈ (entropy_gather_internal hp ctx
            (List.replicate MBEDTLS_ENTROPY_MAX_GATHER 0)).ctx.sources,
            ∀ t, (s.poll t).isOk = true := by
          rw [hsources]
          intro s hs t
          obtain ⟨u, hu, rfl⟩ := List.mem_map.mp hs
          exact hall u hu t
        have hstr2 : (entropy_gather_internal hp ctx
            (List.replicate MBEDTLS_ENTROPY_MAX_GATHER 0)).ctx.sources.any
            (fun s => s.strong) = true := by
          rw [hsources, List.any_map]
          simpa [Function.comp] using hstr
        have hth2 : sk.size + pollOlen sk < sk.threshold := by
          rw [holen0]
          omega
        obtain ⟨ha, hb⟩ := ih (entropy_gather_internal hp ctx
            (List.replicate MBEDTLS_ENTROPY_MAX_GATHER 0)).ctx k
          { sk with calls := sk.calls + 1, size := sk.size + pollOlen sk }
          hall2 hstr2 hknew hzero hth2
        refine ⟨ha, ?_⟩
        intro j
        rw [hb j, hsources, List.getElem?_map]
        cases hj : ctx.sources[j]? with
        | none => rfl
        | some u =>
          simp only [Option.map_some']
          congr 1
          omega

/-- C4 (amended): with a request of valid length, callbacks that all
succeed, a Strong source registered, and some source that can never meet
its threshold because its callback always returns zero bytes,
`mbedtls_entropy_func` terminates: it runs exactly ENTROPY_MAX_LOOP + 1
gather rounds (each source is polled exactly that many times) and then
fails, returning the MBEDTLS_ERR_ENTROPY_SOURCE_FAILED code (entropy.c has
no distinct loop-exceeded code). -/
theorem entropy_func_loop_bounded (hp : HashPrim) (hne : hp.NeverFails)
    (ctx : mbedtls_entropy_context) (out : List Nat) (len : Nat)
    (k : Nat) (sk : EntropySource)
    (hlen : len ≤ MBEDTLS_ENTROPY_BLOCK_SIZE)
    (hall : ∀ s ∈ ctx.sources, ∀ t, (s.poll t).isOk = true)
    (hstr : ctx.sources.any (fun s => s.strong) = true)
    (hk : ctx.sources[k]? = some sk)
    (hzero : ∀ t, sk.poll t = PollRes.ok [])
    (hth : sk.size < sk.threshold) :
    (mbedtls_entropy_func hp ctx out len).ret = some EntErr.SOURCE_FAILED ∧
    ∀ j : Nat,
      (mbedtls_entropy_func hp ctx out len).ctx.sources[j]?.map
        (fun s => s.calls) =
      ctx.sources[j]?.map (fun s => s.calls + (ENTROPY_MAX_LOOP + 1)) := by
  obtain ⟨ha, hb⟩ := gatherLoop_stuck hp hne (ENTROPY_MAX_LOOP + 1) ctx k sk
    hall hstr hk hzero hth
  unfold mbedtls_entropy_func
  rw [if_neg (Nat.not_lt.mpr hlen)]
  cases hgl : gatherLoop hp (ENTROPY_MAX_LOOP + 1) ctx with
  | mk r1 ctx1 =>
    rw [hgl] at ha hb
    have ha2 : r1 = some EntErr.SOURCE_FAILED := by simpa using ha
    subst ha2
    exact ⟨rfl, fun j => by simpa using hb j⟩

/-- A strong source with a positive threshold whose callback always
succeeds with zero bytes: it can never meet its threshold. -/
def srcStuck : EntropySource :=
  { poll := fun _ => PollRes.ok [], calls := 0, threshold := 1,
    strong := true, size := 0 }

/-- A context with `srcStuck` as its only registered source. -/
def ctxStuck : mbedtls_entropy_context :=
  { sources := [srcStuck], accumulator_started := false, transcript := [] }

/-- Witness for `entropy_func_loop_bounded` at the stuck context. -/
theorem entropy_func_loop_bounded_applied :
    (mbedtls_entropy_func hashOk ctxStuck (List.replicate 4 9) 4).ret =
      some EntErr.SOURCE_FAILED :=
  (entropy_func_loop_bounded hashOk
      ⟨rfl, fun _ _ => rfl, fun _ => rfl, fun _ => rfl⟩
      ctxStuck (List.replicate 4 9) 4 0 srcStuck
      (by decide)
      (by intro s hs t; rw [ctxStuck, List.mem_singleton] at hs; subst hs; rfl)
      (by rfl)
      (by rfl)
      (fun _ => rfl)
      (by decide)).1

set_option maxRecDepth 100000 in
/-- C4 counterexample: at the concrete stuck context the loop-bound
failure carries the MBEDTLS_ERR_ENTROPY_SOURCE_FAILED code, which is not
the distinct LoopExceeded error the claim names. -/
theorem entropy_func_loop_err_name_cex :
    (mbedtls_entropy_func hashOk ctxStuck (List.replicate 4 9) 4).ret =
      some EntErr.SOURCE_FAILED ∧
    EntErr.SOURCE_FAILED ≠ EntErr.LoopExceeded := by
  decide

/-- Polling loop behavior when the first failing callback sits at index k:
the loop stops there with that callback's error, sources before k keep
their updated counters (one more invocation, size grown by the bytes each
reported), source k records the failed invocation, and sources after k are
untouched (in particular not polled). -/
theorem gatherFrom_firstFail (hp : HashPrim) (hne : hp.NeverFails) :
    ∀ (rest : List EntropySource) (acc : mbedtls_entropy_context) (i : Nat)
      (buf : List Nat) (hos : Bool) (k : Nat) (sk : EntropySource) (e : EntErr),
      rest[k]? = some sk →
      (∀ j : Nat, j < k → ∀ sj, rest[j]? = some sj →
        (sj.poll sj.calls).isOk = true) →
      sk.poll sk.calls = PollRes.fail e →
      (gatherFrom hp acc i rest buf hos).ret = some e ∧
      (gatherFrom hp acc i rest buf hos).srcs[k]? =
        some { sk with calls := sk.calls + 1 } ∧
      (∀ j : Nat, j < k → ∀ sj, rest[j]? = some sj →
        (gatherFrom hp acc i rest buf hos).srcs[j]? =
          some { sj with calls := sj.calls + 1, size := sj.size + pollOlen sj }) ∧
      (∀ j : Nat, k < j →
        (gatherFrom hp acc i rest buf hos).srcs[j]? = rest[j]?) := by
  intro rest
  induction rest with
  | nil =>
    intro acc i buf hos k sk e hk _ _
    simp at hk
  | cons s tail ih =>
    intro acc i buf hos k sk e hk hpre hfail
    cases k with
    | zero =>
      have hs : s = sk := by simpa using hk
      subst hs
      unfold gatherFrom
      dsimp only
      rw [hfail]
      dsimp only
      refine ⟨rfl, by simp, ?_, ?_⟩
      · intro j hj sj _
        omega
      · intro j hj
        cases j with
        | zero => omega
        | succ j => simp
    | succ k =>
      have htk : tail[k]? = some sk := by simpa using hk
      have hs0 : (s.poll s.calls).isOk = true :=
        hpre 0 (Nat.succ_pos k) s (by simp)
      have hpre2 : ∀ j : Nat, j < k → ∀ sj, tail[j]? = some sj →
          (sj.poll sj.calls).isOk = true := by
        intro j hj sj hjs
        exact hpre (j + 1) (Nat.succ_lt_succ hj) sj (by simpa using hjs)
      unfold gatherFrom
      dsimp only
      cases hpoll : s.poll s.calls with
      | fail e2 => rw [hpoll] at hs0; simp [PollRes.isOk] at hs0
      | ok data =>
        have holen : pollOlen s = data.length := by simp [pollOlen, hpoll]
        by_cases hlenpos : 0 < data.length
        · simp only [if_pos hlenpos]
          cases hup : entropy_update hp acc i data with
          | mk r1 acc1 =>
            have hr1 : r1 = none := by
              have hnf := entropy_update_neverFails hp hne acc i data
              rw [hup] at hnf; exact hnf
            subst hr1
            dsimp only
            obtain ⟨ha, hbk, hblt, hbgt⟩ := ih acc1 (i + 1) (bufWrite buf data)
              (hos || s.strong) k sk e htk hpre2 hfail
            refine ⟨ha, by simpa using hbk, ?_, ?_⟩
            · intro j hj sj hjs
              cases j with
              | zero =>
                rw [List.getElem?_cons_zero] at hjs
                injection hjs with hsj
                subst hsj
                simp [holen]
              | succ j =>
                have hj2 : j < k := Nat.lt_of_succ_lt_succ hj
                have hres := hblt j hj2 sj (by simpa using hjs)
                simpa using hres
            · intro j hj
              cases j with
              | zero => omega
              | succ j =>
                have hres := hbgt j (Nat.lt_of_succ_lt_succ hj)
                simpa using hres
        · simp only [if_neg hlenpos]
          obtain ⟨ha, hbk, hblt, hbgt⟩ := ih acc (i + 1) buf
            (hos || s.strong) k sk e htk hpre2 hfail
          refine ⟨ha, by simpa using hbk, ?_, ?_⟩
          · intro j hj sj hjs
            cases j with
            | zero =>
              rw [List.getElem?_cons_zero] at hjs
              injection hjs with hsj
              subst hsj
              have hzero : data.length = 0 := Nat.eq_zero_of_not_pos hlenpos
              simp [holen, hzero]
            | succ j =>
              have hj2 : j < k := Nat.lt_of_succ_lt_succ hj
              have hres := hblt j hj2 sj (by simpa using hjs)
              simpa using hres
          · intro j hj
            cases j with
            | zero => omega
            | succ j =>
              have hres := hbgt j (Nat.lt_of_succ_lt_succ hj)
              simpa using hres

/-- C8 (confirmed): when the poll callback of the source at index k fails
with the conventional MBEDTLS_ERR_ENTROPY_SOURCE_FAILED code while every
earlier callback succeeds, the gather round aborts with that error: the
sources after index k are left exactly as they were (hence not polled),
and every source before k keeps its pre-round size plus exactly the bytes
it contributed in this round before the failing call (no rollback). -/
theorem gather_poll_failure (hp : HashPrim) (hne : hp.NeverFails)
    (ctx : mbedtls_entropy_context) (buf0 : List Nat)
    (k : Nat) (sk : EntropySource)
    (hk : ctx.sources[k]? = some sk)
    (hpre : ∀ j : Nat, j < k → ∀ sj, ctx.sources[j]? = some sj →
      (sj.poll sj.calls).isOk = true)
    (hfail : sk.poll sk.calls = PollRes.fail EntErr.SOURCE_FAILED) :
    (entropy_gather_internal hp ctx buf0).ret = some EntErr.SOURCE_FAILED ∧
    (∀ j : Nat, j < k → ∀ sj, ctx.sources[j]? = some sj →
      (entropy_gather_internal hp ctx buf0).ctx.sources[j]? =
        some { sj with calls := sj.calls + 1, size := sj.size + pollOlen sj }) ∧
    (entropy_gather_internal hp ctx buf0).ctx.sources[k]? =
      some { sk with calls := sk.calls + 1 } ∧
    (∀ j : Nat, k < j →
      (entropy_gather_internal hp ctx buf0).ctx.sources[j]? =
        ctx.sources[j]?) := by
  obtain ⟨ha, hbk, hblt, hbgt⟩ := gatherFrom_firstFail hp hne ctx.sources ctx
    0 buf0 false k sk EntErr.SOURCE_FAILED hk hpre hfail
  have hnonempty : ¬ ctx.sources.length = 0 := by
    rcases List.getElem?_eq_some.mp hk with ⟨h1, _⟩
    omega
  unfold entropy_gather_internal
  dsimp only
  rw [if_neg hnonempty]
  split
  · next e heq =>
    rw [ha] at heq
    injection heq with he
    subst he
    exact ⟨rfl, fun j hj sj hjs => hblt j hj sj hjs, hbk,
      fun j hj => hbgt j hj⟩
  · next heq => rw [ha] at heq; exact Option.noConfusion heq

/-- A weak contributing source placed before the failing source. -/
def srcBefore : EntropySource :=
  { poll := fun _ => PollRes.ok [5, 6], calls := 0, threshold := 4,
    strong := false, size := 10 }

/-- A source whose poll callback fails with the conventional
MBEDTLS_ERR_ENTROPY_SOURCE_FAILED code. -/
def srcFailing : EntropySource :=
  { poll := fun _ => PollRes.fail EntErr.SOURCE_FAILED, calls := 0,
    threshold := 0, strong := true, size := 0 }

/-- A source placed after the failing source. -/
def srcAfter : EntropySource :=
  { poll := fun _ => PollRes.ok [9], calls := 3, threshold := 1,
    strong := false, size := 7 }

/-- A context whose middle source fails. -/
def ctxFailMid : mbedtls_entropy_context :=
  { sources := [srcBefore, srcFailing, srcAfter],
    accumulator_started := false, transcript := [] }

/-- Witness for `gather_poll_failure`: failing middle source, untouched
third source, first source's size grown by exactly its contribution. -/
theorem gather_poll_failure_applied :
    (entropy_gather_internal hashOk ctxFailMid
        (List.replicate MBEDTLS_ENTROPY_MAX_GATHER 0)).ret =
      some EntErr.SOURCE_FAILED ∧
    (entropy_gather_internal hashOk ctxFailMid
        (List.replicate MBEDTLS_ENTROPY_MAX_GATHER 0)).ctx.sources[2]? =
      ctxFailMid.sources[2]? ∧
    (entropy_gather_internal hashOk ctxFailMid
        (List.replicate MBEDTLS_ENTROPY_MAX_GATHER 0)).ctx.sources[0]? =
      some { srcBefore with calls := srcBefore.calls + 1, size := srcBefore.size + pollOlen srcBefore } := by
  have hk : ctxFailMid.sources[1]? = some srcFailing := by
    rw [ctxFailMid]
    simp
  have hpre : ∀ j : Nat, j < 1 → ∀ sj, ctxFailMid.sources[j]? = some sj →
      (sj.poll sj.calls).isOk = true := by
    intro j hj sj hjs
    have hj0 : j = 0 := by omega
    subst hj0
    rw [ctxFailMid] at hjs
    simp only [List.getElem?_cons_zero] at hjs
    injection hjs with hsj
    subst hsj
    rfl
  have hfail : srcFailing.poll srcFailing.calls =
      PollRes.fail EntErr.SOURCE_FAILED := rfl
  obtain ⟨ha, hblt, hbk, hbgt⟩ := gather_poll_failure hashOk
    ⟨rfl, fun _ _ => rfl, fun _ => rfl, fun _ => rfl⟩ ctxFailMid
    (List.replicate MBEDTLS_ENTROPY_MAX_GATHER 0) 1 srcFailing hk hpre hfail
  refine ⟨ha, hbgt 2 (by omega), hblt 0 (by omega) srcBefore ?_⟩
  rw [ctxFailMid]
  simp

set_option maxRecDepth 16384 in
/-- Witness for `entropy_func_success_sizes_zero` at a concrete successful
extraction. -/
theorem entropy_func_success_sizes_zero_applied :
    (mbedtls_entropy_func hashOk ctxStrongOne (List.replicate 4 9) 4).ret
      = none ∧
    ∀ s ∈ (mbedtls_entropy_func hashOk ctxStrongOne
        (List.replicate 4 9) 4).ctx.sources, s.size = 0 :=
  ⟨by decide, entropy_func_success_sizes_zero hashOk ctxStrongOne
    (List.replicate 4 9) 4 (by decide)⟩
